import Mathlib

/-!
Verification of the core data and geometry logic of finplot.py.

Dataframes are modelled as lists of rows of rationals, the first entry
of a row being the timestamp.  The file embeds:
* the `PandasDataSource` range-query structure (`_hilo`, the cached
  `hilo`, throttled row sampling `rows`/`bear_rows`/`bull_rows`, and
  `update`),
* the candlestick picture cache of `FinPlotItem`,
* the zoom arithmetic of `FinViewBox.zoom_rect`,
* the crosshair number formatting `_round_to_significant`, and
* the epoch-axis tick labels (`EpochAxisItem.tickStrings` via
  `_epoch2local`).

Definitions come first, then the theorems.
-/

namespace Finplot

/-- Source constant `v_zoom_padding = 0.03` (padded on top+bottom of plot). -/
def v_zoom_padding : ℚ := 3 / 100

/-- Cell access into a dataframe row (absent cells read as 0). -/
def cell (r : List ℚ) (i : ℕ) : ℚ := r.getD i 0

/-- The timestamp of a row: its first cell. -/
def timeOf (r : List ℚ) : ℚ := cell r 0

/-- The rows of the frame whose timestamp lies in the closed window
`[x0, x1]`; embeds `df.loc[(df[timecol]>=x0)&(df[timecol]<=x1)]`. -/
def inRange (df : List (List ℚ)) (x0 x1 : ℚ) : List (List ℚ) :=
  df.filter (fun r => decide (x0 ≤ timeOf r) && decide (timeOf r ≤ x1))

/-- Maximum of a list of rationals (0 on the empty list, never used there). -/
def listMax : List ℚ → ℚ
  | [] => 0
  | [x] => x
  | x :: y :: t => max x (listMax (y :: t))

/-- Minimum of a list of rationals (0 on the empty list, never used there). -/
def listMin : List ℚ → ℚ
  | [] => 0
  | [x] => x
  | x :: y :: t => min x (listMin (y :: t))

/-- All cells of the given rows sitting in the scale columns; the multiset
of values that `df[valcols].max().max()` and `.min().min()` range over. -/
def scaleCells (sc : List ℕ) : List (List ℚ) → List ℚ
  | [] => []
  | r :: rs => sc.map (cell r) ++ scaleCells sc rs

/-- The state of a `PandasDataSource`: its dataframe (a list of rows,
first cell the epoch time), the column offset for shared frames, the
scale-column indices and the `hilo` cache fields. -/
structure PandasDataSource where
  df : List (List ℚ)
  col_data_offset : ℕ
  scale_cols : List ℕ
  cache_hilo_query : String
  cache_hilo_answer : Option (ℚ × ℚ × ℚ × ℚ × ℕ)

namespace PandasDataSource

/-- Embeds `PandasDataSource._hilo`: first/last timestamp of the window,
padded and clamped high/low over the scale columns, and the row count. -/
def hiloRaw (d : PandasDataSource) (x0 x1 : ℚ) : ℚ × ℚ × ℚ × ℚ × ℕ :=
  let sub := inRange d.df x0 x1
  if sub = [] then (0, 0, 0, 0, 0)
  else
    let t0 := timeOf (sub.headD [])
    let t1 := timeOf (sub.getLastD [])
    let cs := scaleCells d.scale_cols sub
    let hi0 := listMax cs
    let lo0 := listMin cs
    let pad := max ((hi0 - lo0) * v_zoom_padding) (2 / 10 ^ 7)
    (t0, t1, min (hi0 + pad) (10 ^ 99), max (lo0 - pad) (-(10 ^ 99)), sub.length)

/-- Embeds `PandasDataSource.hilo`, the query cache.  The rendering of the
query range (source: `'%.9g,%.9g' % (x0,x1)`) is abstracted as `fmt`. -/
def hilo (fmt : ℚ → ℚ → String) (d : PandasDataSource) (x0 x1 : ℚ) :
    PandasDataSource × Option (ℚ × ℚ × ℚ × ℚ × ℕ) :=
  let query := fmt x0 x1
  if query ≠ d.cache_hilo_query then
    let ans := d.hiloRaw x0 x1
    ({ d with cache_hilo_query := query, cache_hilo_answer := some ans }, some ans)
  else (d, d.cache_hilo_answer)

end PandasDataSource

/-- Auxiliary for `decimate`; the counter is the number of elements still
to skip before the next taken one. -/
def decimateAux {α : Type} (k : ℕ) : ℕ → List α → List α
  | _, [] => []
  | 0, x :: xs => x :: decimateAux k (k - 1) xs
  | c + 1, _ :: xs => decimateAux k c xs

/-- Every k-th element (indices 0, k, 2k, ...); embeds `df.iloc[::k]`. -/
def decimate {α : Type} (k : ℕ) (l : List α) : List α := decimateAux k 0 l

namespace PandasDataSource

/-- Column selection of `_rows`: the time column followed by `colcnt - 1`
data columns starting at the column offset. -/
def selectRowCols (off colcnt : ℕ) (r : List ℚ) : List ℚ :=
  r.take 1 ++ (r.drop (1 + off)).take (colcnt - 1)

/-- Embeds `PandasDataSource._rows`: decimate when the frame is longer than
`throttle_at`, then select the columns of each row. -/
def rowsImpl (off : ℕ) (sub : List (List ℚ)) (colcnt throttle_at : ℕ) :
    List (List ℚ) :=
  let sub2 := if throttle_at < sub.length
    then decimate (sub.length / throttle_at) sub else sub
  sub2.map (selectRowCols off colcnt)

/-- Embeds `PandasDataSource.rows`. -/
def rows (d : PandasDataSource) (colcnt : ℕ) (x0 x1 : ℚ) (throttle_at : ℕ) :
    List (List ℚ) :=
  rowsImpl d.col_data_offset (inRange d.df x0 x1) colcnt throttle_at

/-- Embeds `PandasDataSource.bear_rows` (open strictly above close). -/
def bear_rows (d : PandasDataSource) (colcnt : ℕ) (x0 x1 : ℚ)
    (throttle_at : ℕ) : List (List ℚ) :=
  rowsImpl d.col_data_offset
    ((inRange d.df x0 x1).filter
      (fun r => decide (cell r (2 + d.col_data_offset) <
        cell r (1 + d.col_data_offset))))
    colcnt throttle_at

/-- Embeds `PandasDataSource.bull_rows` (open at or below close). -/
def bull_rows (d : PandasDataSource) (colcnt : ℕ) (x0 x1 : ℚ)
    (throttle_at : ℕ) : List (List ℚ) :=
  rowsImpl d.col_data_offset
    ((inRange d.df x0 x1).filter
      (fun r => decide (cell r (1 + d.col_data_offset) ≤
        cell r (2 + d.col_data_offset))))
    colcnt throttle_at

end PandasDataSource

/-- An axis-aligned rectangle in view coordinates, as constructed by
`QtCore.QRectF(left, top, width, height)`; only the horizontal data
matters to the embedded logic. -/
structure Rect where
  left : ℚ
  top : ℚ
  width : ℚ
  height : ℚ

/-- The right edge, `QRectF.right() = left + width`. -/
def Rect.right (r : Rect) : ℚ := r.left + r.width

/-- The drawing state of a `FinPlotItem`: its dirty flag and the
rectangle the picture was generated for. -/
structure FinPlotItemState where
  dirty : Bool
  cachedRect : Rect

namespace FinPlotItemState

/-- Embeds `FinPlotItem._generate_picture`: cache a rectangle three times
as wide as the bounding one, one width to each side, and clear dirty. -/
def generatePicture (s : FinPlotItemState) (boundingRect : Rect) :
    FinPlotItemState :=
  { dirty := false,
    cachedRect :=
      ⟨boundingRect.left - boundingRect.width, 0, 3 * boundingRect.width, 0⟩ }

/-- Embeds `FinPlotItem.update_dirty_picture`. -/
def update_dirty_picture (s : FinPlotItemState) (visibleRect : Rect) :
    FinPlotItemState :=
  if s.dirty = true ∨ visibleRect.left ≤ s.cachedRect.left ∨
      s.cachedRect.right ≤ visibleRect.right ∨
      visibleRect.width < s.cachedRect.width / 10
  then s.generatePicture visibleRect else s

end FinPlotItemState

/-- Embeds the bound computation of `FinViewBox.zoom_rect`: the new
horizontal range from the target rectangle `vr`, the scale factor and the
zoom center x-coordinate. -/
def zoom_rect (vr : Rect) (scale_fact : ℚ) (cx : ℚ) : ℚ × ℚ :=
  (cx + (vr.left - cx) * scale_fact, cx + (vr.right - cx) * scale_fact)

/-- The affine map that `zoom_rect` applies to both horizontal edges
(the spec reading of the zoom as a transformation of x-coordinates). -/
def zoomMap (scale_fact cx x : ℚ) : ℚ := cx + (x - cx) * scale_fact

/-- The decimal digit characters. -/
def digitChar (d : ℕ) : Char :=
  if d = 0 then '0' else if d = 1 then '1' else if d = 2 then '2'
  else if d = 3 then '3' else if d = 4 then '4' else if d = 5 then '5'
  else if d = 6 then '6' else if d = 7 then '7' else if d = 8 then '8'
  else '9'

/-- Decimal digit characters of a natural number, most significant first. -/
def natChars (n : ℕ) : List Char :=
  if n = 0 then ['0'] else ((Nat.digits 10 n).map digitChar).reverse

/-- Left-pad with zero characters to the given width. -/
def padLeftZeros (w : ℕ) (l : List Char) : List Char :=
  List.replicate (w - l.length) '0' ++ l

/-- Python `round` to an integer: round half to even. -/
def pyRound (q : ℚ) : ℤ :=
  if q - ⌊q⌋ < 1 / 2 then ⌊q⌋
  else if 1 / 2 < q - ⌊q⌋ then ⌊q⌋ + 1
  else if ⌊q⌋ % 2 = 0 then ⌊q⌋ else ⌊q⌋ + 1

/-- Embeds `_round_to_significant`: Python `round(x, d)` followed by
`'%.<d>f' % x`, producing the fixed-point decimal character string. -/
def round_to_significant (y : ℚ) (d : ℕ) : List Char :=
  let n := pyRound (y * 10 ^ d)
  let a := n.natAbs
  let sign : List Char := if n < 0 then ['-'] else []
  let ip := a / 10 ^ d
  let fp := a % 10 ^ d
  sign ++ natChars ip ++
    (if d = 0 then [] else '.' :: padLeftZeros d (natChars fp))

/-- The value `round(y, d)` as a rational: `y` rounded (half to even) to
`d` decimal places. -/
def roundDecimals (y : ℚ) (d : ℕ) : ℚ := (pyRound (y * 10 ^ d) : ℚ) / 10 ^ d

/-- Numeric value of a decimal digit character. -/
def digitVal (c : Char) : ℕ := c.toNat - 48

/-- Value of a string of decimal digit characters. -/
def parseNat (l : List Char) : ℕ := l.foldl (fun a c => 10 * a + digitVal c) 0

/-- Value of an unsigned fixed-point decimal character string. -/
def parseFixedAbs (l : List Char) : ℚ :=
  let ip := l.takeWhile (fun c => c ≠ '.')
  let fp := (l.dropWhile (fun c => c ≠ '.')).tail
  (parseNat ip : ℚ) + (parseNat fp : ℚ) / 10 ^ fp.length

/-- Value denoted by a fixed-point decimal character string, sign
included (the spec reading of "the decimal string of y rounded to d
decimal places"). -/
def parseFixed (l : List Char) : ℚ :=
  match l with
  | '-' :: t => -parseFixedAbs t
  | _ => parseFixedAbs l

/-- The y-axis readout built by `FinCrossHair.update` (grid snap off and
no extra info callbacks): six spaces followed by the rounded value. -/
def crosshairYText (significant_decimals : ℕ) (y : ℚ) : List Char :=
  [' ', ' ', ' ', ' ', ' ', ' '] ++ round_to_significant y significant_decimals

/-- Fixed-width two-digit decimal field, as `'%02i'`. -/
def two (n : ℕ) : List Char := padLeftZeros 2 (natChars n)

/-- Fixed-width four-digit decimal field, as the year in `isoformat`. -/
def four (n : ℕ) : List Char := padLeftZeros 4 (natChars n)

/-- Civil date (year, month, day) from days since the Unix epoch, the
standard era-based algorithm used by `datetime.fromtimestamp`. -/
def civilFromDays (z : ℤ) : ℤ × ℕ × ℕ :=
  let z2 := z + 719468
  let era := z2.fdiv 146097
  let doe := (z2.fmod 146097).toNat
  let yoe := (doe - doe / 1460 + doe / 36524 - doe / 146096) / 365
  let doy := doe - (365 * yoe + yoe / 4 - yoe / 100)
  let mp := (5 * doy + 2) / 153
  let dd := doy - (153 * mp + 2) / 5 + 1
  let m := if mp < 10 then mp + 3 else mp - 9
  (era * 400 + yoe + (if m ≤ 2 then 1 else 0), m, dd)

/-- The date part `YYYY-MM-DD` of the local time at offset `tzoff`
seconds from UTC. -/
def dateChars (tzoff t : ℤ) : List Char :=
  let days := (t + tzoff).fdiv 86400
  let c := civilFromDays days
  four c.1.toNat ++ '-' :: two c.2.1 ++ '-' :: two c.2.2

/-- The `HH:MM` part of the local time. -/
def hourMinChars (tzoff t : ℤ) : List Char :=
  let sod := ((t + tzoff).fmod 86400).toNat
  two (sod / 3600) ++ ':' :: two (sod / 60 % 60)

/-- The trailing seconds field `SS` of the local time. -/
def secChars (tzoff t : ℤ) : List Char :=
  two (((t + tzoff).fmod 86400).toNat % 60)

/-- `datetime.fromtimestamp(t).isoformat()` for an integral timestamp in
a timezone at offset `tzoff` seconds: `YYYY-MM-DDTHH:MM:SS`. -/
def isoformat (tzoff t : ℤ) : List Char :=
  dateChars tzoff t ++ 'T' :: (hourMinChars tzoff t ++ ':' :: secChars tzoff t)

/-- Python `str.replace(a, b)` for single characters. -/
def replaceChar (a b : Char) (l : List Char) : List Char :=
  l.map (fun c => if c = a then b else c)

/-- The first component of Python `str.rsplit(':', 1)`: everything before
the last colon (the whole string when there is none). -/
def rsplitColonHead (l : List Char) : List Char :=
  if ':' ∈ l then ((l.reverse.dropWhile (fun c => c ≠ ':')).tail).reverse else l

/-- Embeds `_epoch2local`. -/
def epoch2local (tzoff t : ℤ) : List Char :=
  rsplitColonHead (replaceChar 'T' ' ' (isoformat tzoff t))

/-- Embeds `EpochAxisItem.tickStrings` (the scale and spacing arguments
are unused by the source). -/
def tickStrings (tzoff : ℤ) (values : List ℤ) (scale spacing : ℚ) :
    List (List Char) :=
  values.map (fun v => epoch2local tzoff v)

/-- The label the spec describes: the local date-time in ISO format with
the T separator replaced by a space and the trailing seconds field (after
the last colon) removed. -/
def specLabel (tzoff t : ℤ) : List Char :=
  dateChars tzoff t ++ ' ' :: hourMinChars tzoff t

/-- A named dataframe: column names (first the time column) and rows of
optional cells (`none` models a pandas NaN), used to embed
`PandasDataSource.update`. -/
structure NFrame where
  cols : List String
  rows : List (List (Option ℚ))

/-- `renames.get(col, col)`: apply the rename mapping, defaulting to the
name itself. -/
def renget (renames : List (String × String)) (c : String) : String :=
  match renames.find? (fun p => p.1 = c) with
  | some p => p.2
  | none => c

/-- First position of a column name in a header (pandas label lookup). -/
def colIdx (c : String) : List String → ℕ
  | [] => 0
  | x :: xs => if x = c then 0 else colIdx c xs + 1

/-- The value of column `c` at the row of `d` whose time (first cell)
equals `t`; `none` when no such row exists (the NaN that a pandas
index-aligned assignment produces). -/
def dLookup (d : NFrame) (t : Option ℚ) (c : String) : Option ℚ :=
  match d.rows.find? (fun r => decide (r.headD none = t)) with
  | some r => r.getD (colIdx c d.cols) none
  | none => none

/-- One step of the update loop `data[col] = df[col]`: append the column
joined from `d` on the time index, unless it is already present. -/
def addCol (d : NFrame) (acc : NFrame) (c : String) : NFrame :=
  if c ∈ acc.cols then acc
  else ⟨acc.cols ++ [c],
        acc.rows.map (fun r => r ++ [dLookup d (r.headD none) c])⟩

/-- Column selection by name, as `data[orig_cols]`. -/
def selectColsByName (names : List String) (f : NFrame) : NFrame :=
  ⟨names, f.rows.map (fun r => names.map (fun c => r.getD (colIdx c f.cols) none))⟩

/-- Embeds `PandasDataSource.update` on named frames: re-key the update
frame `s` by the rename mapping, copy over each column of the old frame
`d` that `s` lacks (joined on the time index), and select the original
columns in their original order. -/
def NFrame.update (renames : List (String × String)) (d s : NFrame) : NFrame :=
  let timecol := d.cols.headD ""
  let data1 : NFrame := ⟨timecol :: s.cols.tail.map (renget renames), s.rows⟩
  selectColsByName d.cols (d.cols.tail.foldl (addCol d) data1)

/-- Concrete frames for the C10 witness. -/
def dC10 : NFrame := ⟨["t", "a", "b"], [[some 1, some 10, some 20]]⟩

/-- The update frame for the C10 witness: a new value for column a at
time 1 and a fresh row at time 2. -/
def sC10 : NFrame := ⟨["t", "a"], [[some 1, some 99], [some 2, some 98]]⟩

/-- Concrete three-row data source for the C3 counterexample and witness. -/
def dsC3 : PandasDataSource := ⟨[[0, 1], [1, 2], [2, 3]], 0, [1], "", none⟩

/-- Concrete candle data source (time, open, close) for the C9 witness. -/
def dsC9 : PandasDataSource := ⟨[[0, 3, 1], [1, 2, 5]], 0, [1, 2], "", none⟩

/-- A constant query renderer, used by the witnesses. -/
def fmtK : ℚ → ℚ → String := fun _ _ => "k"

/-- Concrete two-row data source for the C1 witness. -/
def dsC1 : PandasDataSource := ⟨[[1, 5], [2, 7]], 0, [1], "", none⟩

/-- Concrete data source holding the value 1e99, for the C1 counterexample. -/
def dsC1x : PandasDataSource := ⟨[[0, 10 ^ 99]], 0, [1], "", none⟩

/-- Concrete data source for the C2 witness. -/
def dsC2 : PandasDataSource := ⟨[[1, 2]], 0, [1], "", none⟩

/-- Concrete data source whose single timestamp 5 misses the window [0,1],
for the C8 witness. -/
def dsC8 : PandasDataSource := ⟨[[5, 1]], 0, [1], "", none⟩

/-! ## Theorems -/

theorem le_listMax : ∀ (l : List ℚ), ∀ a ∈ l, a ≤ listMax l := by
  intro l
  induction l with
  | nil => intro a ha; cases ha
  | cons x t ih =>
    intro a ha
    cases t with
    | nil =>
      rcases List.mem_singleton.mp ha with rfl
      exact le_of_eq rfl
    | cons y t2 =>
      rcases List.mem_cons.mp ha with rfl | h
      · exact le_max_left _ _
      · exact le_trans (ih a h) (le_max_right _ _)

theorem listMin_le : ∀ (l : List ℚ), ∀ a ∈ l, listMin l ≤ a := by
  intro l
  induction l with
  | nil => intro a ha; cases ha
  | cons x t ih =>
    intro a ha
    cases t with
    | nil =>
      rcases List.mem_singleton.mp ha with rfl
      exact le_of_eq rfl
    | cons y t2 =>
      rcases List.mem_cons.mp ha with rfl | h
      · exact min_le_left _ _
      · exact le_trans (min_le_right _ _) (ih a h)

theorem listMax_mem : ∀ (l : List ℚ), l ≠ [] → listMax l ∈ l := by
  intro l
  induction l with
  | nil => intro h; exact absurd rfl h
  | cons x t ih =>
    intro _
    cases t with
    | nil => exact List.mem_singleton.mpr rfl
    | cons y t2 =>
      rcases max_choice x (listMax (y :: t2)) with h | h
      · rw [show listMax (x :: y :: t2) = max x (listMax (y :: t2)) from rfl, h]
        exact List.mem_cons_self _ _
      · rw [show listMax (x :: y :: t2) = max x (listMax (y :: t2)) from rfl, h]
        exact List.mem_cons_of_mem _ (ih (by simp))

theorem listMin_mem : ∀ (l : List ℚ), l ≠ [] → listMin l ∈ l := by
  intro l
  induction l with
  | nil => intro h; exact absurd rfl h
  | cons x t ih =>
    intro _
    cases t with
    | nil => exact List.mem_singleton.mpr rfl
    | cons y t2 =>
      rcases min_choice x (listMin (y :: t2)) with h | h
      · rw [show listMin (x :: y :: t2) = min x (listMin (y :: t2)) from rfl, h]
        exact List.mem_cons_self _ _
      · rw [show listMin (x :: y :: t2) = min x (listMin (y :: t2)) from rfl, h]
        exact List.mem_cons_of_mem _ (ih (by simp))

theorem mem_scaleCells {sc : List ℕ} {i : ℕ} :
    ∀ {rows : List (List ℚ)} {r : List ℚ}, r ∈ rows → i ∈ sc →
      cell r i ∈ scaleCells sc rows := by
  intro rows
  induction rows with
  | nil => intro r hr; cases hr
  | cons a rs ih =>
    intro r hr hi
    rcases List.mem_cons.mp hr with rfl | h
    · exact List.mem_append_left _ (List.mem_map_of_mem _ hi)
    · exact List.mem_append_right _ (ih h hi)

namespace PandasDataSource

theorem hilo_hit (fmt : ℚ → ℚ → String) (e : PandasDataSource) (x0 x1 : ℚ)
    (h : fmt x0 x1 = e.cache_hilo_query) :
    hilo fmt e x0 x1 = (e, e.cache_hilo_answer) := by
  simp only [hilo]
  rw [if_neg (by push_neg; exact h)]

theorem hilo_miss (fmt : ℚ → ℚ → String) (e : PandasDataSource) (x0 x1 : ℚ)
    (h : fmt x0 x1 ≠ e.cache_hilo_query) :
    hilo fmt e x0 x1 =
      ({ e with cache_hilo_query := fmt x0 x1,
                cache_hilo_answer := some (e.hiloRaw x0 x1) },
       some (e.hiloRaw x0 x1)) := by
  simp only [hilo]
  rw [if_pos h]

theorem hilo_fst_query (fmt : ℚ → ℚ → String) (d : PandasDataSource) (x0 x1 : ℚ) :
    (hilo fmt d x0 x1).1.cache_hilo_query = fmt x0 x1 := by
  by_cases h : fmt x0 x1 ≠ d.cache_hilo_query
  · rw [hilo_miss fmt d x0 x1 h]
  · push_neg at h
    rw [hilo_hit fmt d x0 x1 h, h]

theorem hilo_fst_answer (fmt : ℚ → ℚ → String) (d : PandasDataSource) (x0 x1 : ℚ) :
    (hilo fmt d x0 x1).1.cache_hilo_answer = (hilo fmt d x0 x1).2 := by
  by_cases h : fmt x0 x1 ≠ d.cache_hilo_query
  · rw [hilo_miss fmt d x0 x1 h]
  · push_neg at h
    rw [hilo_hit fmt d x0 x1 h]

end PandasDataSource

/-- Claim C1 (amended): for a window containing at least one row and a
nonempty scale-column set, `_hilo(x0, x1)` returns the first and last
in-window timestamps, the in-window row count, and high/low equal to the
true maximum/minimum over the scale columns padded by
`pad = max((max - min) * 0.03, 2e-7)` and clamped to `±1e99`; the high is
strictly greater than the true maximum provided that maximum is below
1e99, and the low strictly less than the true minimum provided that
minimum is above -1e99 (the unconditional strict inequalities of the
original claim fail at the clamp, see the counterexample). -/
theorem hilo_padded_bounds (d : PandasDataSource) (x0 x1 : ℚ) (hx : x0 ≤ x1)
    (hne : inRange d.df x0 x1 ≠ []) (hsc : d.scale_cols ≠ []) :
    ∃ M m : ℚ,
      M ∈ scaleCells d.scale_cols (inRange d.df x0 x1) ∧
      m ∈ scaleCells d.scale_cols (inRange d.df x0 x1) ∧
      (∀ c ∈ scaleCells d.scale_cols (inRange d.df x0 x1), m ≤ c ∧ c ≤ M) ∧
      d.hiloRaw x0 x1 =
        (timeOf ((inRange d.df x0 x1).headD []),
         timeOf ((inRange d.df x0 x1).getLastD []),
         min (M + max ((M - m) * v_zoom_padding) (2 / 10 ^ 7)) (10 ^ 99),
         max (m - max ((M - m) * v_zoom_padding) (2 / 10 ^ 7)) (-(10 ^ 99)),
         (inRange d.df x0 x1).length) ∧
      (M < 10 ^ 99 → M < (d.hiloRaw x0 x1).2.2.1) ∧
      (-(10 ^ 99) < m → (d.hiloRaw x0 x1).2.2.2.1 < m) := by
  obtain ⟨i, hi⟩ := List.exists_mem_of_ne_nil _ hsc
  obtain ⟨r, hr⟩ := List.exists_mem_of_ne_nil _ hne
  have hcs : scaleCells d.scale_cols (inRange d.df x0 x1) ≠ [] :=
    List.ne_nil_of_mem (mem_scaleCells hr hi)
  have heq : d.hiloRaw x0 x1 =
      (timeOf ((inRange d.df x0 x1).headD []),
       timeOf ((inRange d.df x0 x1).getLastD []),
       min (listMax (scaleCells d.scale_cols (inRange d.df x0 x1)) +
            max ((listMax (scaleCells d.scale_cols (inRange d.df x0 x1)) -
                  listMin (scaleCells d.scale_cols (inRange d.df x0 x1))) *
                 v_zoom_padding) (2 / 10 ^ 7)) (10 ^ 99),
       max (listMin (scaleCells d.scale_cols (inRange d.df x0 x1)) -
            max ((listMax (scaleCells d.scale_cols (inRange d.df x0 x1)) -
                  listMin (scaleCells d.scale_cols (inRange d.df x0 x1))) *
                 v_zoom_padding) (2 / 10 ^ 7)) (-(10 ^ 99)),
       (inRange d.df x0 x1).length) := by
    simp only [PandasDataSource.hiloRaw]
    rw [if_neg hne]
  have hpad : 0 < max ((listMax (scaleCells d.scale_cols (inRange d.df x0 x1)) -
      listMin (scaleCells d.scale_cols (inRange d.df x0 x1))) * v_zoom_padding)
      (2 / 10 ^ 7) :=
    lt_of_lt_of_le (by norm_num) (le_max_right _ _)
  refine ⟨listMax (scaleCells d.scale_cols (inRange d.df x0 x1)),
          listMin (scaleCells d.scale_cols (inRange d.df x0 x1)),
          listMax_mem _ hcs, listMin_mem _ hcs,
          fun c hc => ⟨listMin_le _ _ hc, le_listMax _ _ hc⟩, heq, ?_, ?_⟩
  · intro hM
    rw [heq]
    exact lt_min (lt_add_of_pos_right _ hpad) hM
  · intro hm
    rw [heq]
    exact max_lt (by linarith) hm

/-- Witness for C1 at a concrete two-row data source. -/
theorem hilo_padded_bounds_witness :
    ((0 : ℚ) ≤ 10 ∧ inRange dsC1.df 0 10 ≠ [] ∧ dsC1.scale_cols ≠ []) ∧
    (∃ M m : ℚ,
      M ∈ scaleCells dsC1.scale_cols (inRange dsC1.df 0 10) ∧
      m ∈ scaleCells dsC1.scale_cols (inRange dsC1.df 0 10) ∧
      (∀ c ∈ scaleCells dsC1.scale_cols (inRange dsC1.df 0 10), m ≤ c ∧ c ≤ M) ∧
      dsC1.hiloRaw 0 10 =
        (timeOf ((inRange dsC1.df 0 10).headD []),
         timeOf ((inRange dsC1.df 0 10).getLastD []),
         min (M + max ((M - m) * v_zoom_padding) (2 / 10 ^ 7)) (10 ^ 99),
         max (m - max ((M - m) * v_zoom_padding) (2 / 10 ^ 7)) (-(10 ^ 99)),
         (inRange dsC1.df 0 10).length) ∧
      (M < 10 ^ 99 → M < (dsC1.hiloRaw 0 10).2.2.1) ∧
      (-(10 ^ 99) < m → (dsC1.hiloRaw 0 10).2.2.2.1 < m)) :=
  ⟨⟨by norm_num, by decide, by decide⟩,
   hilo_padded_bounds dsC1 0 10 (by norm_num) (by decide) (by decide)⟩

/-- Counterexample to C1 as stated: on a data source holding the single
value 1e99, the clamped high equals the true maximum, so the high is not
strictly greater than the true maximum. -/
theorem hilo_clamp_counterexample :
    inRange dsC1x.df 0 0 ≠ [] ∧
    listMax (scaleCells dsC1x.scale_cols (inRange dsC1x.df 0 0)) = 10 ^ 99 ∧
    (∀ c ∈ scaleCells dsC1x.scale_cols (inRange dsC1x.df 0 0), c ≤ 10 ^ 99) ∧
    (dsC1x.hiloRaw 0 0).2.2.1 = 10 ^ 99 ∧
    ¬ (10 ^ 99 < (dsC1x.hiloRaw 0 0).2.2.1) := by
  have hsub : inRange dsC1x.df 0 0 = [[0, 10 ^ 99]] := by
    simp [inRange, dsC1x, timeOf, cell]
  have hcells : scaleCells dsC1x.scale_cols (inRange dsC1x.df 0 0) = [10 ^ 99] := by
    rw [hsub]; rfl
  have hhi : (dsC1x.hiloRaw 0 0).2.2.1 = 10 ^ 99 := by
    simp only [PandasDataSource.hiloRaw]
    rw [if_neg (by rw [hsub]; exact List.cons_ne_nil _ _)]
    simp only [hcells]
    show min (listMax [(10 : ℚ) ^ 99] +
        max ((listMax [(10 : ℚ) ^ 99] - listMin [(10 : ℚ) ^ 99]) * v_zoom_padding)
        (2 / 10 ^ 7)) (10 ^ 99) = 10 ^ 99
    have hmm : listMax [(10 : ℚ) ^ 99] = listMin [(10 : ℚ) ^ 99] := rfl
    rw [hmm, sub_self, zero_mul, max_eq_right (by norm_num : (0 : ℚ) ≤ 2 / 10 ^ 7)]
    rw [show listMin [(10 : ℚ) ^ 99] = 10 ^ 99 from rfl]
    exact min_eq_right (by norm_num)
  refine ⟨by rw [hsub]; exact List.cons_ne_nil _ _, by rw [hcells]; rfl,
    ?_, hhi, by rw [hhi]; exact lt_irrefl _⟩
  intro c hc
  rw [hcells] at hc
  rcases List.mem_singleton.mp hc with rfl
  exact le_refl _

/-- Claim C2: `hilo` caches its answer keyed on the rendered query range:
a second call whose rendered range coincides with the first returns
exactly the cached tuple and leaves the state unchanged, even if the
dataframe was replaced in between; a call whose rendered range differs
from the cached key returns `_hilo` computed on the current data. -/
theorem hilo_cache_contract (fmt : ℚ → ℚ → String) (d : PandasDataSource)
    (x0 x1 x0a x1a : ℚ) (df2 : List (List ℚ)) :
    (fmt x0a x1a = fmt x0 x1 →
      PandasDataSource.hilo fmt
          { (PandasDataSource.hilo fmt d x0 x1).1 with df := df2 } x0a x1a =
        ({ (PandasDataSource.hilo fmt d x0 x1).1 with df := df2 },
         (PandasDataSource.hilo fmt d x0 x1).2)) ∧
    (fmt x0a x1a ≠ (PandasDataSource.hilo fmt d x0 x1).1.cache_hilo_query →
      (PandasDataSource.hilo fmt
          { (PandasDataSource.hilo fmt d x0 x1).1 with df := df2 } x0a x1a).2 =
        some (PandasDataSource.hiloRaw
          { (PandasDataSource.hilo fmt d x0 x1).1 with df := df2 } x0a x1a)) := by
  constructor
  · intro h
    have hq : fmt x0a x1a =
        ({ (PandasDataSource.hilo fmt d x0 x1).1 with df := df2 } :
          PandasDataSource).cache_hilo_query :=
      h.trans (PandasDataSource.hilo_fst_query fmt d x0 x1).symm
    rw [PandasDataSource.hilo_hit fmt _ x0a x1a hq]
    exact congrArg _ (PandasDataSource.hilo_fst_answer fmt d x0 x1)
  · intro h
    have h2 : fmt x0a x1a ≠
        ({ (PandasDataSource.hilo fmt d x0 x1).1 with df := df2 } :
          PandasDataSource).cache_hilo_query := h
    rw [PandasDataSource.hilo_miss fmt _ x0a x1a h2]

/-- Witness for C2: with a constant renderer the second call hits the
cache. -/
theorem hilo_cache_contract_witness :
    fmtK 2 3 = fmtK 0 1 ∧
    PandasDataSource.hilo fmtK
        { (PandasDataSource.hilo fmtK dsC2 0 1).1 with df := [[3, 4]] } 2 3 =
      ({ (PandasDataSource.hilo fmtK dsC2 0 1).1 with df := [[3, 4]] },
       (PandasDataSource.hilo fmtK dsC2 0 1).2) :=
  ⟨rfl, (hilo_cache_contract fmtK dsC2 0 1 2 3 [[3, 4]]).1 rfl⟩

/-- Claim C8: a window containing no row timestamp makes `_hilo` return
`(0, 0, 0, 0, 0)`, and `hilo` on a fresh query range returns the same. -/
theorem hilo_empty_window (fmt : ℚ → ℚ → String) (d : PandasDataSource)
    (x0 x1 : ℚ) (h : inRange d.df x0 x1 = []) :
    d.hiloRaw x0 x1 = (0, 0, 0, 0, 0) ∧
    (fmt x0 x1 ≠ d.cache_hilo_query →
      (PandasDataSource.hilo fmt d x0 x1).2 = some (0, 0, 0, 0, 0)) := by
  have h1 : d.hiloRaw x0 x1 = (0, 0, 0, 0, 0) := by
    simp only [PandasDataSource.hiloRaw]
    rw [if_pos h]
  exact ⟨h1, fun hq => by rw [PandasDataSource.hilo_miss fmt d x0 x1 hq, h1]⟩

theorem decimateAux_length {α : Type} (k : ℕ) (hk : 0 < k) :
    ∀ (l : List α) (c : ℕ), c < k →
      (decimateAux k c l).length = (l.length + (k - 1) - c) / k := by
  intro l
  induction l with
  | nil =>
    intro c hc
    have h0 : decimateAux k c ([] : List α) = [] := by
      cases c with
      | zero => rfl
      | succ c2 => rfl
    rw [h0]
    show (0 : ℕ) = (([] : List α).length + (k - 1) - c) / k
    rw [List.length_nil]
    symm
    apply Nat.div_eq_of_lt
    omega
  | cons x xs ih =>
    intro c hc
    cases c with
    | zero =>
      show (x :: decimateAux k (k - 1) xs).length = _
      rw [List.length_cons, ih (k - 1) (by omega),
          show xs.length + (k - 1) - (k - 1) = xs.length by omega,
          show (x :: xs).length + (k - 1) - 0 = xs.length + k by
            rw [List.length_cons]; omega,
          Nat.add_div_right _ hk]
    | succ c2 =>
      show (decimateAux k c2 xs).length = _
      rw [ih c2 (by omega)]
      congr 1
      rw [List.length_cons]
      omega

theorem decimate_length {α : Type} (k : ℕ) (hk : 0 < k) (l : List α) :
    (decimate k l).length = (l.length + (k - 1)) / k := by
  rw [decimate, decimateAux_length k hk l 0 hk, Nat.sub_zero]

theorem decimated_bound (n T : ℕ) (hT : 1 ≤ T) (hn : T < n) :
    (n + (n / T - 1)) / (n / T) ≤ 2 * T - 1 := by
  have hk1 : 1 ≤ n / T := (Nat.one_le_div_iff (by omega)).mpr (le_of_lt hn)
  have hmod := Nat.div_add_mod n T
  have hr : n % T < T := Nat.mod_lt _ (by omega)
  have hP : T + n / T ≤ T * (n / T) + 1 := by
    rcases Nat.exists_eq_add_of_le hT with ⟨a, ha⟩
    rcases Nat.exists_eq_add_of_le hk1 with ⟨b, hb⟩
    rw [hb, ha]
    calc 1 + a + (1 + b) = a + b + 2 := by ring
    _ ≤ a * b + (a + b + 2) := Nat.le_add_left _ _
    _ = (1 + a) * (1 + b) + 1 := by ring
  have hlt : n + (n / T - 1) < 2 * T * (n / T) := by
    have h2 : 2 * T * (n / T) = 2 * (T * (n / T)) := by ring
    omega
  have := (Nat.div_lt_iff_lt_mul (show 0 < n / T by omega)).mpr hlt
  omega

theorem rowsImpl_length (off : ℕ) (sub : List (List ℚ)) (colcnt T : ℕ)
    (hT : 1 ≤ T) : (PandasDataSource.rowsImpl off sub colcnt T).length ≤ 2 * T - 1 := by
  unfold PandasDataSource.rowsImpl
  rw [List.length_map]
  by_cases h : T < sub.length
  · rw [if_pos h, decimate_length _ ((Nat.one_le_div_iff (by omega)).mpr (le_of_lt h))]
    exact decimated_bound sub.length T hT h
  · rw [if_neg h]
    omega

theorem rowsImpl_no_throttle (off : ℕ) (sub : List (List ℚ)) (colcnt T : ℕ)
    (h : ¬ T < sub.length) :
    PandasDataSource.rowsImpl off sub colcnt T =
      sub.map (PandasDataSource.selectRowCols off colcnt) := by
  unfold PandasDataSource.rowsImpl
  rw [if_neg h]

/-- Claim C3 (amended): `rows`, `bear_rows` and `bull_rows` produce at most
`2 * throttle_at - 1` row tuples (not `throttle_at` as originally claimed,
see the counterexample); when the in-window rows exceed `throttle_at` they
are decimated by taking every `(len // throttle_at)`-th row. -/
theorem rows_throttle_bound (d : PandasDataSource) (colcnt : ℕ) (x0 x1 : ℚ)
    (throttle_at : ℕ) (hT : 1 ≤ throttle_at) :
    (d.rows colcnt x0 x1 throttle_at).length ≤ 2 * throttle_at - 1 ∧
    (d.bear_rows colcnt x0 x1 throttle_at).length ≤ 2 * throttle_at - 1 ∧
    (d.bull_rows colcnt x0 x1 throttle_at).length ≤ 2 * throttle_at - 1 ∧
    (throttle_at < (inRange d.df x0 x1).length →
      d.rows colcnt x0 x1 throttle_at =
        (decimate ((inRange d.df x0 x1).length / throttle_at)
            (inRange d.df x0 x1)).map
          (PandasDataSource.selectRowCols d.col_data_offset colcnt)) := by
  refine ⟨rowsImpl_length _ _ _ _ hT, rowsImpl_length _ _ _ _ hT,
    rowsImpl_length _ _ _ _ hT, fun h => ?_⟩
  unfold PandasDataSource.rows PandasDataSource.rowsImpl
  rw [if_pos h]

/-- Counterexample to C3 as stated: three rows with `throttle_at = 2` give
a decimation step of `3 // 2 = 1`, so all three rows survive, exceeding
`throttle_at`. -/
theorem rows_throttle_counterexample :
    (1 : ℕ) ≤ 2 ∧ (dsC3.rows 2 0 2 2).length = 3 ∧
    ¬ ((dsC3.rows 2 0 2 2).length ≤ 2) := by
  refine ⟨by norm_num, by decide, by decide⟩

/-- Witness for C3 (amended) at the same concrete data source. -/
theorem rows_throttle_bound_witness :
    (1 : ℕ) ≤ 2 ∧ (dsC3.rows 2 0 2 2).length ≤ 2 * 2 - 1 :=
  ⟨by norm_num, (rows_throttle_bound dsC3 2 0 2 2 (by norm_num)).1⟩

theorem decide_le_eq_not_decide_lt (a b : ℚ) :
    decide (a ≤ b) = !decide (b < a) := by
  by_cases h : a ≤ b
  · rw [decide_eq_true h, decide_eq_false (not_lt.mpr h)]
    rfl
  · rw [decide_eq_false h, decide_eq_true (not_le.mp h)]
    rfl

/-- Claim C9: on an unthrottled window, the bear rows (open strictly above
close) and the bull rows (open at or below close) partition the window:
their concatenation is a permutation of `rows` over the same window, each
in-range bearish row contributes to `bear_rows`, each bullish one to
`bull_rows`, and no row is both bearish and bullish. -/
theorem bear_bull_partition (d : PandasDataSource) (colcnt : ℕ) (x0 x1 : ℚ)
    (throttle_at : ℕ)
    (hcnt : (inRange d.df x0 x1).length ≤ throttle_at) :
    (d.bear_rows colcnt x0 x1 throttle_at ++ d.bull_rows colcnt x0 x1 throttle_at).Perm
      (d.rows colcnt x0 x1 throttle_at) ∧
    (∀ r ∈ inRange d.df x0 x1,
      cell r (2 + d.col_data_offset) < cell r (1 + d.col_data_offset) →
        PandasDataSource.selectRowCols d.col_data_offset colcnt r ∈
          d.bear_rows colcnt x0 x1 throttle_at) ∧
    (∀ r ∈ inRange d.df x0 x1,
      cell r (1 + d.col_data_offset) ≤ cell r (2 + d.col_data_offset) →
        PandasDataSource.selectRowCols d.col_data_offset colcnt r ∈
          d.bull_rows colcnt x0 x1 throttle_at) ∧
    (∀ r ∈ inRange d.df x0 x1,
      ¬ (cell r (2 + d.col_data_offset) < cell r (1 + d.col_data_offset) ∧
         cell r (1 + d.col_data_offset) ≤ cell r (2 + d.col_data_offset))) := by
  have hbear : d.bear_rows colcnt x0 x1 throttle_at =
      ((inRange d.df x0 x1).filter
        (fun r => decide (cell r (2 + d.col_data_offset) <
          cell r (1 + d.col_data_offset)))).map
        (PandasDataSource.selectRowCols d.col_data_offset colcnt) :=
    rowsImpl_no_throttle _ _ _ _
      (by have := List.length_filter_le
            (fun r => decide (cell r (2 + d.col_data_offset) <
              cell r (1 + d.col_data_offset))) (inRange d.df x0 x1)
          omega)
  have hbull : d.bull_rows colcnt x0 x1 throttle_at =
      ((inRange d.df x0 x1).filter
        (fun r => decide (cell r (1 + d.col_data_offset) ≤
          cell r (2 + d.col_data_offset)))).map
        (PandasDataSource.selectRowCols d.col_data_offset colcnt) :=
    rowsImpl_no_throttle _ _ _ _
      (by have := List.length_filter_le
            (fun r => decide (cell r (1 + d.col_data_offset) ≤
              cell r (2 + d.col_data_offset))) (inRange d.df x0 x1)
          omega)
  have hrows : d.rows colcnt x0 x1 throttle_at =
      (inRange d.df x0 x1).map
        (PandasDataSource.selectRowCols d.col_data_offset colcnt) :=
    rowsImpl_no_throttle _ _ _ _ (by omega)
  refine ⟨?_, ?_, ?_, ?_⟩
  · rw [hbear, hbull, hrows, ← List.map_append]
    refine List.Perm.map _ ?_
    have hcongr : (inRange d.df x0 x1).filter
        (fun r => decide (cell r (1 + d.col_data_offset) ≤
          cell r (2 + d.col_data_offset))) =
        (inRange d.df x0 x1).filter
        (fun r => !decide (cell r (2 + d.col_data_offset) <
          cell r (1 + d.col_data_offset))) := by
      apply List.filter_congr
      intro r _
      exact decide_le_eq_not_decide_lt _ _
    rw [hcongr]
    exact List.filter_append_perm _ _
  · intro r hr hc
    rw [hbear]
    exact List.mem_map_of_mem _
      (List.mem_filter.mpr ⟨hr, decide_eq_true hc⟩)
  · intro r hr hc
    rw [hbull]
    exact List.mem_map_of_mem _
      (List.mem_filter.mpr ⟨hr, decide_eq_true hc⟩)
  · intro r _ hc
    exact absurd hc.2 (not_le.mpr hc.1)

/-- Witness for C9 at a concrete two-candle data source. -/
theorem bear_bull_partition_witness :
    (inRange dsC9.df 0 1).length ≤ 2000 ∧
    (dsC9.bear_rows 3 0 1 2000 ++ dsC9.bull_rows 3 0 1 2000).Perm
      (dsC9.rows 3 0 1 2000) :=
  ⟨by decide, (bear_bull_partition dsC9 3 0 1 2000 (by decide)).1⟩

/-- Claim C5: `_generate_picture(r)` caches the rectangle spanning
`[r.left - r.width, r.left + 2 * r.width]` (three times the visible
width, one width to each side) and clears the dirty flag;
`update_dirty_picture(v)` regenerates the picture exactly when the item
is dirty, or `v.left <= cachedRect.left`, or `v.right >= cachedRect.right`,
or `v.width < cachedRect.width / 10`. -/
theorem update_dirty_picture_spec (s : FinPlotItemState) (r v : Rect) :
    (s.generatePicture r).cachedRect.left = r.left - r.width ∧
    (s.generatePicture r).cachedRect.right = r.left + 2 * r.width ∧
    (s.generatePicture r).cachedRect.width = 3 * r.width ∧
    (s.generatePicture r).dirty = false ∧
    ((s.dirty = true ∨ v.left ≤ s.cachedRect.left ∨
        s.cachedRect.right ≤ v.right ∨ v.width < s.cachedRect.width / 10) →
      s.update_dirty_picture v = s.generatePicture v) ∧
    (¬ (s.dirty = true ∨ v.left ≤ s.cachedRect.left ∨
        s.cachedRect.right ≤ v.right ∨ v.width < s.cachedRect.width / 10) →
      s.update_dirty_picture v = s) := by
  refine ⟨rfl, ?_, rfl, rfl, fun h => ?_, fun h => ?_⟩
  · show r.left - r.width + 3 * r.width = r.left + 2 * r.width
    ring
  · unfold FinPlotItemState.update_dirty_picture
    rw [if_pos h]
  · unfold FinPlotItemState.update_dirty_picture
    rw [if_neg h]

/-- Witness for C5 on a dirty item. -/
theorem update_dirty_picture_spec_witness :
    ((⟨true, ⟨0, 0, 1, 0⟩⟩ : FinPlotItemState).dirty = true ∨
      (⟨0, 0, 1, 0⟩ : Rect).left ≤
        (⟨true, ⟨0, 0, 1, 0⟩⟩ : FinPlotItemState).cachedRect.left ∨
      (⟨true, ⟨0, 0, 1, 0⟩⟩ : FinPlotItemState).cachedRect.right ≤
        (⟨0, 0, 1, 0⟩ : Rect).right ∨
      (⟨0, 0, 1, 0⟩ : Rect).width <
        (⟨true, ⟨0, 0, 1, 0⟩⟩ : FinPlotItemState).cachedRect.width / 10) ∧
    (⟨true, ⟨0, 0, 1, 0⟩⟩ : FinPlotItemState).update_dirty_picture ⟨0, 0, 1, 0⟩ =
      (⟨true, ⟨0, 0, 1, 0⟩⟩ : FinPlotItemState).generatePicture ⟨0, 0, 1, 0⟩ :=
  ⟨Or.inl rfl,
   (update_dirty_picture_spec ⟨true, ⟨0, 0, 1, 0⟩⟩ ⟨0, 0, 1, 0⟩
     ⟨0, 0, 1, 0⟩).2.2.2.2.1 (Or.inl rfl)⟩

/-- Claim C6: `zoom_rect` maps both horizontal edges through the affine
map `x ↦ cx + (x - cx) * s`; the new width is `s` times the old width,
the center x-coordinate is a fixed point of that map, and with `s = 1`
the bounds are unchanged. -/
theorem zoom_rect_spec (vr : Rect) (s cx : ℚ) :
    zoom_rect vr s cx = (zoomMap s cx vr.left, zoomMap s cx vr.right) ∧
    (zoom_rect vr s cx).2 - (zoom_rect vr s cx).1 = s * vr.width ∧
    zoomMap s cx cx = cx ∧
    (s = 1 → zoom_rect vr s cx = (vr.left, vr.right)) := by
  refine ⟨rfl, ?_, ?_, fun hs => ?_⟩
  · show (cx + (vr.right - cx) * s) - (cx + (vr.left - cx) * s) = s * vr.width
    rw [Rect.right]
    ring
  · show cx + (cx - cx) * s = cx
    ring
  · subst hs
    show (cx + (vr.left - cx) * 1, cx + (vr.right - cx) * 1) = (vr.left, vr.right)
    rw [show cx + (vr.left - cx) * 1 = vr.left from by ring,
        show cx + (vr.right - cx) * 1 = vr.right from by ring]

/-- Witness for C6 at scale factor 1. -/
theorem zoom_rect_spec_witness :
    (1 : ℚ) = 1 ∧
    zoom_rect ⟨0, 0, 2, 0⟩ 1 5 =
      ((⟨0, 0, 2, 0⟩ : Rect).left, (⟨0, 0, 2, 0⟩ : Rect).right) :=
  ⟨rfl, (zoom_rect_spec ⟨0, 0, 2, 0⟩ 1 5).2.2.2 rfl⟩

/-- Witness for C8 at a window missing the single row. -/
theorem hilo_empty_window_witness :
    inRange dsC8.df 0 1 = [] ∧ fmtK 0 1 ≠ dsC8.cache_hilo_query ∧
    dsC8.hiloRaw 0 1 = (0, 0, 0, 0, 0) ∧
    (PandasDataSource.hilo fmtK dsC8 0 1).2 = some (0, 0, 0, 0, 0) :=
  ⟨by decide, by decide,
   (hilo_empty_window fmtK dsC8 0 1 (by decide)).1,
   (hilo_empty_window fmtK dsC8 0 1 (by decide)).2 (by decide)⟩

theorem digitChar_ne (d : ℕ) :
    digitChar d ≠ '.' ∧ digitChar d ≠ 'T' ∧ digitChar d ≠ ':' ∧
    digitChar d ≠ '-' ∧ digitChar d ≠ ' ' := by
  unfold digitChar
  repeat' split
  all_goals exact ⟨by decide, by decide, by decide, by decide, by decide⟩

theorem digitVal_digitChar {d : ℕ} (h : d < 10) : digitVal (digitChar d) = d := by
  interval_cases d <;> decide

theorem mem_natChars {c : Char} {n : ℕ} (h : c ∈ natChars n) :
    ∃ d, d < 10 ∧ c = digitChar d := by
  unfold natChars at h
  by_cases h0 : n = 0
  · rw [if_pos h0] at h
    rcases List.mem_singleton.mp h with rfl
    exact ⟨0, by norm_num, rfl⟩
  · rw [if_neg h0, List.mem_reverse] at h
    rcases List.mem_map.mp h with ⟨d, hd, rfl⟩
    exact ⟨d, Nat.digits_lt_base (by norm_num) hd, rfl⟩

theorem mem_padNat {c : Char} {w n : ℕ}
    (h : c ∈ padLeftZeros w (natChars n)) :
    ∃ d, d < 10 ∧ c = digitChar d := by
  unfold padLeftZeros at h
  rcases List.mem_append.mp h with h | h
  · rcases List.eq_of_mem_replicate h with rfl
    exact ⟨0, by norm_num, rfl⟩
  · exact mem_natChars h

theorem takeWhile_append_all {α : Type} (p : α → Bool) (x : α) (l2 : List α) :
    ∀ (l1 : List α), (∀ c ∈ l1, p c = true) → p x = false →
      (l1 ++ x :: l2).takeWhile p = l1 := by
  intro l1
  induction l1 with
  | nil =>
    intro _ hx
    simp [List.takeWhile_cons, hx]
  | cons a as ih =>
    intro h1 hx
    have ha : p a = true := h1 a (List.mem_cons_self _ _)
    rw [List.cons_append, List.takeWhile_cons, ha, if_pos rfl,
        ih (fun c hc => h1 c (List.mem_cons_of_mem _ hc)) hx]

theorem dropWhile_append_all {α : Type} (p : α → Bool) (l2 : List α) :
    ∀ (l1 : List α), (∀ c ∈ l1, p c = true) →
      (l1 ++ l2).dropWhile p = l2.dropWhile p := by
  intro l1
  induction l1 with
  | nil => intro; rfl
  | cons a as ih =>
    intro h1
    have ha : p a = true := h1 a (List.mem_cons_self _ _)
    rw [List.cons_append, List.dropWhile_cons, ha, if_pos rfl,
        ih (fun c hc => h1 c (List.mem_cons_of_mem _ hc))]

theorem takeWhile_all {α : Type} (p : α → Bool) :
    ∀ (l : List α), (∀ c ∈ l, p c = true) → l.takeWhile p = l := by
  intro l
  induction l with
  | nil => intro; rfl
  | cons a as ih =>
    intro h1
    have ha : p a = true := h1 a (List.mem_cons_self _ _)
    rw [List.takeWhile_cons, ha, if_pos rfl,
        ih (fun c hc => h1 c (List.mem_cons_of_mem _ hc))]

theorem dropWhile_all {α : Type} (p : α → Bool) :
    ∀ (l : List α), (∀ c ∈ l, p c = true) → l.dropWhile p = [] := by
  intro l
  induction l with
  | nil => intro; rfl
  | cons a as ih =>
    intro h1
    have ha : p a = true := h1 a (List.mem_cons_self _ _)
    rw [List.dropWhile_cons, ha, if_pos rfl,
        ih (fun c hc => h1 c (List.mem_cons_of_mem _ hc))]

theorem parseNat_append (l1 l2 : List Char) :
    parseNat (l1 ++ l2) =
      l2.foldl (fun a c => 10 * a + digitVal c) (parseNat l1) := by
  unfold parseNat
  rw [List.foldl_append]

theorem parseNat_digitList : ∀ (ds : List ℕ), (∀ x ∈ ds, x < 10) →
    parseNat ((ds.map digitChar).reverse) = Nat.ofDigits 10 ds := by
  intro ds
  induction ds with
  | nil => intro; rfl
  | cons d tl ih =>
    intro h
    rw [List.map_cons, List.reverse_cons, parseNat_append]
    show 10 * parseNat ((tl.map digitChar).reverse) + digitVal (digitChar d) = _
    rw [ih (fun x hx => h x (List.mem_cons_of_mem _ hx)),
        digitVal_digitChar (h d (List.mem_cons_self _ _)), Nat.ofDigits_cons]
    omega

theorem parseNat_natChars (n : ℕ) : parseNat (natChars n) = n := by
  unfold natChars
  by_cases h : n = 0
  · rw [if_pos h, h]
    decide
  · rw [if_neg h,
        parseNat_digitList _ (fun x hx => Nat.digits_lt_base (by norm_num) hx),
        Nat.ofDigits_digits]

theorem parseNat_cons_zero (l : List Char) :
    parseNat ('0' :: l) = parseNat l := by
  have h : 10 * 0 + digitVal '0' = 0 := by decide
  show List.foldl (fun a c => 10 * a + digitVal c) (10 * 0 + digitVal '0') l =
    List.foldl (fun a c => 10 * a + digitVal c) 0 l
  rw [h]

theorem parseNat_padLeftZeros (w : ℕ) (l : List Char) :
    parseNat (padLeftZeros w l) = parseNat l := by
  unfold padLeftZeros
  generalize w - l.length = k
  induction k with
  | zero => rfl
  | succ k2 ih =>
    rw [List.replicate_succ, List.cons_append, parseNat_cons_zero]
    exact ih

theorem padLeftZeros_length {w : ℕ} {l : List Char} (h : l.length ≤ w) :
    (padLeftZeros w l).length = w := by
  unfold padLeftZeros
  rw [List.length_append, List.length_replicate]
  omega

theorem natChars_ne_nil (n : ℕ) : natChars n ≠ [] := by
  unfold natChars
  by_cases h : n = 0
  · rw [if_pos h]
    exact List.cons_ne_nil _ _
  · rw [if_neg h]
    simp only [ne_eq, List.reverse_eq_nil_iff, List.map_eq_nil]
    exact Nat.digits_ne_nil_iff_ne_zero.mpr h

theorem natChars_length_le {n d : ℕ} (hd : 1 ≤ d) (hn : n < 10 ^ d) :
    (natChars n).length ≤ d := by
  unfold natChars
  by_cases h : n = 0
  · rw [if_pos h]
    simpa using hd
  · rw [if_neg h, List.length_reverse, List.length_map,
        Nat.digits_len 10 n (by norm_num) h]
    have := (Nat.lt_pow_iff_log_lt (by norm_num) h).mp hn
    omega

theorem pyRound_sub_abs (q : ℚ) : |((pyRound q : ℤ) : ℚ) - q| ≤ 1 / 2 := by
  have h0 : (0 : ℚ) ≤ q - ⌊q⌋ := by
    have := Int.floor_le q
    linarith
  have h1 : q - ⌊q⌋ < 1 := by
    have := Int.lt_floor_add_one q
    linarith
  unfold pyRound
  split_ifs with ha hb hc
  · rw [abs_le]
    constructor <;> linarith
  · rw [abs_le]
    push_cast
    constructor <;> linarith
  · rw [abs_le]
    constructor <;> linarith
  · rw [abs_le]
    push_cast
    constructor <;> linarith

theorem parseFixed_eq_abs (l : List Char) (h : ∀ t, l ≠ '-' :: t) :
    parseFixed l = parseFixedAbs l := by
  unfold parseFixed
  split
  · rename_i t
    exact absurd rfl (h t)
  · rfl

theorem parseFixedAbs_digits_append (a : ℕ) (d : ℕ) :
    parseFixedAbs (natChars (a / 10 ^ d) ++
        (if d = 0 then [] else
          '.' :: padLeftZeros d (natChars (a % 10 ^ d)))) =
      (a : ℚ) / 10 ^ d := by
  have hA : ∀ c ∈ natChars (a / 10 ^ d), decide (c ≠ '.') = true := by
    intro c hc
    rcases mem_natChars hc with ⟨k, _, rfl⟩
    exact decide_eq_true (digitChar_ne k).1
  by_cases hd : d = 0
  · subst hd
    rw [if_pos rfl, List.append_nil]
    simp only [parseFixedAbs]
    rw [takeWhile_all _ _ hA, dropWhile_all _ _ hA]
    rw [parseNat_natChars, List.tail_nil,
        show parseNat ([] : List Char) = 0 from rfl]
    norm_num
  · rw [if_neg hd]
    simp only [parseFixedAbs]
    rw [takeWhile_append_all _ '.' _ _ hA (by decide),
        dropWhile_append_all _ _ _ hA, List.dropWhile_cons,
        if_neg (by simp)]
    rw [List.tail_cons, parseNat_natChars, parseNat_padLeftZeros,
        parseNat_natChars]
    have hfp : a % 10 ^ d < 10 ^ d := Nat.mod_lt _ (pow_pos (by norm_num) d)
    have hlen : (padLeftZeros d (natChars (a % 10 ^ d))).length = d :=
      padLeftZeros_length (natChars_length_le (by omega) hfp)
    rw [hlen]
    have hmod : ((10 : ℚ)) ^ d * ((a / 10 ^ d : ℕ) : ℚ) +
        ((a % 10 ^ d : ℕ) : ℚ) = (a : ℚ) := by
      exact_mod_cast Nat.div_add_mod a (10 ^ d)
    have hpow : ((10 : ℚ)) ^ d ≠ 0 := by positivity
    field_simp
    linarith

theorem formatFixed_parse (n : ℤ) (d : ℕ) :
    parseFixed ((if n < 0 then ['-'] else []) ++ natChars (n.natAbs / 10 ^ d) ++
        (if d = 0 then [] else
          '.' :: padLeftZeros d (natChars (n.natAbs % 10 ^ d)))) =
      (n : ℚ) / 10 ^ d := by
  by_cases hn : n < 0
  · rw [if_pos hn, List.singleton_append, List.cons_append]
    show -parseFixedAbs (natChars (n.natAbs / 10 ^ d) ++
        (if d = 0 then [] else
          '.' :: padLeftZeros d (natChars (n.natAbs % 10 ^ d)))) =
      (n : ℚ) / 10 ^ d
    rw [parseFixedAbs_digits_append]
    have h1 : ((n.natAbs : ℕ) : ℚ) = -(n : ℚ) := by
      rw [Int.cast_natAbs, Int.cast_abs]
      exact abs_of_neg (show (n : ℚ) < 0 by exact_mod_cast hn)
    rw [h1, neg_div, neg_neg]
  · rw [if_neg hn, List.nil_append]
    have hne : ∀ t, (natChars (n.natAbs / 10 ^ d) ++
        (if d = 0 then [] else
          '.' :: padLeftZeros d (natChars (n.natAbs % 10 ^ d)))) ≠ '-' :: t := by
      intro t ht
      cases hA : natChars (n.natAbs / 10 ^ d) with
      | nil => exact natChars_ne_nil _ hA
      | cons c cs =>
        rw [hA, List.cons_append] at ht
        have hcm : c ∈ natChars (n.natAbs / 10 ^ d) := by
          rw [hA]
          exact List.mem_cons_self _ _
        rcases mem_natChars hcm with ⟨k, _, hk⟩
        injection ht with ht1 ht2
        exact (digitChar_ne k).2.2.2.1 (hk ▸ ht1)
    rw [parseFixed_eq_abs _ hne, parseFixedAbs_digits_append]
    have h1 : ((n.natAbs : ℕ) : ℚ) = (n : ℚ) := by
      rw [Int.cast_natAbs, Int.cast_abs]
      exact abs_of_nonneg (show (0 : ℚ) ≤ (n : ℚ) by
        exact_mod_cast not_lt.mp hn)
    rw [h1]

/-- Claim C7: `_round_to_significant(y, d)` returns the decimal string of
`y` rounded (half to even) to `d` decimal places — the string parses back
to exactly that rounded value, which is within `1/(2*10^d)` of `y` — with
exactly `d` digit characters after the decimal point (and no point at all
when `d = 0`); `FinCrossHair.update` builds the y-axis readout as six
spaces followed by this string for the axis significant decimals. -/
theorem round_to_significant_spec (y : ℚ) (d : ℕ) :
    parseFixed (round_to_significant y d) = roundDecimals y d ∧
    |roundDecimals y d - y| ≤ 1 / (2 * 10 ^ d) ∧
    (0 < d → '.' ∈ round_to_significant y d ∧
      (((round_to_significant y d).dropWhile (fun c => c ≠ '.')).tail).length
        = d ∧
      (∀ c ∈ ((round_to_significant y d).dropWhile (fun c => c ≠ '.')).tail,
        ∃ k, k < 10 ∧ c = digitChar k)) ∧
    (d = 0 → '.' ∉ round_to_significant y d) ∧
    crosshairYText d y = [' ', ' ', ' ', ' ', ' ', ' '] ++
      round_to_significant y d := by
  have hS : round_to_significant y d =
      (if pyRound (y * 10 ^ d) < 0 then ['-'] else []) ++
        natChars ((pyRound (y * 10 ^ d)).natAbs / 10 ^ d) ++
        (if d = 0 then [] else
          '.' :: padLeftZeros d
            (natChars ((pyRound (y * 10 ^ d)).natAbs % 10 ^ d))) := rfl
  have hsgnA : ∀ c ∈ (if pyRound (y * 10 ^ d) < 0 then ['-'] else []) ++
      natChars ((pyRound (y * 10 ^ d)).natAbs / 10 ^ d),
      (fun c => decide (c ≠ '.')) c = true := by
    intro c hc
    rcases List.mem_append.mp hc with hc | hc
    · by_cases hn : pyRound (y * 10 ^ d) < 0
      · rw [if_pos hn] at hc
        rcases List.mem_singleton.mp hc with rfl
        decide
      · rw [if_neg hn] at hc
        cases hc
    · rcases mem_natChars hc with ⟨k, _, rfl⟩
      exact decide_eq_true (digitChar_ne k).1
  refine ⟨?_, ?_, ?_, ?_, rfl⟩
  · rw [hS]
    exact formatFixed_parse _ d
  · have h := pyRound_sub_abs (y * 10 ^ d)
    have hpow : (0 : ℚ) < 10 ^ d := by positivity
    have heq : roundDecimals y d - y =
        (((pyRound (y * 10 ^ d) : ℤ) : ℚ) - y * 10 ^ d) / 10 ^ d := by
      unfold roundDecimals
      field_simp
      ring
    rw [heq, abs_div, abs_of_pos hpow, div_le_div_iff hpow (by positivity)]
    nlinarith [mul_le_mul_of_nonneg_right h
      (le_of_lt (show (0 : ℚ) < 2 * 10 ^ d by positivity))]
  · intro hd0
    have hd' : ¬ d = 0 := by omega
    rw [hS, if_neg hd']
    have hdrop : (((if pyRound (y * 10 ^ d) < 0 then ['-'] else []) ++
        natChars ((pyRound (y * 10 ^ d)).natAbs / 10 ^ d) ++
        ('.' :: padLeftZeros d
          (natChars ((pyRound (y * 10 ^ d)).natAbs % 10 ^ d)))).dropWhile
            (fun c => decide (c ≠ '.'))).tail =
        padLeftZeros d (natChars ((pyRound (y * 10 ^ d)).natAbs % 10 ^ d)) := by
      rw [dropWhile_append_all _ _ _ hsgnA, List.dropWhile_cons,
          if_neg (by simp), List.tail_cons]
    refine ⟨?_, ?_, ?_⟩
    · exact List.mem_append_right _ (List.mem_cons_self _ _)
    · rw [hdrop]
      exact padLeftZeros_length (natChars_length_le (by omega)
        (Nat.mod_lt _ (pow_pos (by norm_num) d)))
    · intro c hc
      rw [hdrop] at hc
      exact mem_padNat hc
  · intro hd0
    rw [hS, if_pos hd0, List.append_nil]
    intro hdot
    have := hsgnA '.' hdot
    simp at this

/-- Witness for C7 at `y = 3/2`, `d = 2`. -/
theorem round_to_significant_spec_witness :
    (0 : ℕ) < 2 ∧ '.' ∈ round_to_significant (3 / 2) 2 :=
  ⟨by norm_num, ((round_to_significant_spec (3 / 2) 2).2.2.1 (by norm_num)).1⟩

theorem map_replace_eq_self (a b : Char) :
    ∀ (l : List Char), (∀ c ∈ l, c ≠ a) →
      l.map (fun c => if c = a then b else c) = l := by
  intro l
  induction l with
  | nil => intro; rfl
  | cons x xs ih =>
    intro h
    rw [List.map_cons, if_neg (h x (List.mem_cons_self _ _)),
        ih (fun c hc => h c (List.mem_cons_of_mem _ hc))]

theorem rsplitColonHead_append (A B : List Char)
    (hB : ∀ c ∈ B, (fun c => decide (c ≠ ':')) c = true) :
    rsplitColonHead (A ++ ':' :: B) = A := by
  unfold rsplitColonHead
  rw [if_pos (List.mem_append_right _ (List.mem_cons_self _ _))]
  rw [List.reverse_append, List.reverse_cons, List.append_assoc,
      List.singleton_append]
  rw [dropWhile_append_all _ _ _ (fun c hc => hB c (List.mem_reverse.mp hc))]
  rw [List.dropWhile_cons, if_neg (by simp), List.tail_cons,
      List.reverse_reverse]

theorem dateChars_ne (tzoff t : ℤ) :
    ∀ c ∈ dateChars tzoff t, c ≠ 'T' ∧ c ≠ ':' := by
  intro c hc
  simp only [dateChars, four, two] at hc
  rcases List.mem_append.mp hc with hc | hc
  · rcases List.mem_append.mp hc with hc | hc
    · rcases mem_padNat hc with ⟨k, _, rfl⟩
      exact ⟨(digitChar_ne k).2.1, (digitChar_ne k).2.2.1⟩
    · rcases List.mem_cons.mp hc with rfl | hc
      · exact ⟨by decide, by decide⟩
      · rcases mem_padNat hc with ⟨k, _, rfl⟩
        exact ⟨(digitChar_ne k).2.1, (digitChar_ne k).2.2.1⟩
  · rcases List.mem_cons.mp hc with rfl | hc
    · exact ⟨by decide, by decide⟩
    · rcases mem_padNat hc with ⟨k, _, rfl⟩
      exact ⟨(digitChar_ne k).2.1, (digitChar_ne k).2.2.1⟩

theorem hourMinChars_ne (tzoff t : ℤ) :
    ∀ c ∈ hourMinChars tzoff t, c ≠ 'T' := by
  intro c hc
  simp only [hourMinChars, two] at hc
  rcases List.mem_append.mp hc with hc | hc
  · rcases mem_padNat hc with ⟨k, _, rfl⟩
    exact (digitChar_ne k).2.1
  · rcases List.mem_cons.mp hc with rfl | hc
    · decide
    · rcases mem_padNat hc with ⟨k, _, rfl⟩
      exact (digitChar_ne k).2.1

theorem secChars_ne (tzoff t : ℤ) :
    ∀ c ∈ secChars tzoff t, c ≠ 'T' ∧ c ≠ ':' := by
  intro c hc
  simp only [secChars, two] at hc
  rcases mem_padNat hc with ⟨k, _, rfl⟩
  exact ⟨(digitChar_ne k).2.1, (digitChar_ne k).2.2.1⟩

theorem epoch2local_eq_specLabel (tzoff t : ℤ) :
    epoch2local tzoff t = specLabel tzoff t := by
  have hrep : replaceChar 'T' ' ' (isoformat tzoff t) =
      dateChars tzoff t ++
        ' ' :: (hourMinChars tzoff t ++ ':' :: secChars tzoff t) := by
    unfold isoformat replaceChar
    rw [List.map_append, List.map_cons, if_pos rfl, List.map_append,
        List.map_cons, if_neg (by decide),
        map_replace_eq_self _ _ _ (fun c hc => (dateChars_ne tzoff t c hc).1),
        map_replace_eq_self _ _ _ (hourMinChars_ne tzoff t),
        map_replace_eq_self _ _ _ (fun c hc => (secChars_ne tzoff t c hc).1)]
  have hassoc : dateChars tzoff t ++
      ' ' :: (hourMinChars tzoff t ++ ':' :: secChars tzoff t) =
      (dateChars tzoff t ++ ' ' :: hourMinChars tzoff t) ++
        ':' :: secChars tzoff t := by
    simp [List.append_assoc]
  unfold epoch2local
  rw [hrep, hassoc, rsplitColonHead_append _ _
    (fun c hc => decide_eq_true (secChars_ne tzoff t c hc).2)]
  rfl

/-- Claim C4: `tickStrings(values, scale, spacing)` returns one label per
tick value, the i-th being the local date-time of `values[i]` taken as a
Unix timestamp, in ISO format with the `T` separator replaced by a space
and the trailing seconds field (after the last colon) removed. -/
theorem tickStrings_labels (tzoff : ℤ) (values : List ℤ) (scale spacing : ℚ) :
    tickStrings tzoff values scale spacing = values.map (specLabel tzoff) ∧
    (tickStrings tzoff values scale spacing).length = values.length := by
  constructor
  · unfold tickStrings
    simp only [epoch2local_eq_specLabel]
  · unfold tickStrings
    rw [List.length_map]

theorem colIdx_cons (c x : String) (xs : List String) :
    colIdx c (x :: xs) = if x = c then 0 else colIdx c xs + 1 := rfl

theorem colIdx_append_left {c : String} :
    ∀ {l1 : List String}, c ∈ l1 → ∀ (l2 : List String),
      colIdx c (l1 ++ l2) = colIdx c l1 := by
  intro l1
  induction l1 with
  | nil => intro h; cases h
  | cons x xs ih =>
    intro h l2
    rw [List.cons_append, colIdx_cons, colIdx_cons]
    by_cases hx : x = c
    · rw [if_pos hx, if_pos hx]
    · have hxs : c ∈ xs := by
        rcases List.mem_cons.mp h with rfl | h2
        · exact absurd rfl hx
        · exact h2
      rw [if_neg hx, if_neg hx, ih hxs l2]

theorem colIdx_append_right {c : String} :
    ∀ {l1 : List String}, c ∉ l1 → ∀ (l2 : List String),
      colIdx c (l1 ++ l2) = l1.length + colIdx c l2 := by
  intro l1
  induction l1 with
  | nil => intro _ l2; rw [List.nil_append, List.length_nil, Nat.zero_add]
  | cons x xs ih =>
    intro h l2
    have hx : ¬ x = c := fun hxc => h (hxc ▸ List.mem_cons_self _ _)
    have hxs : c ∉ xs := fun h2 => h (List.mem_cons_of_mem _ h2)
    rw [List.cons_append, colIdx_cons, if_neg hx, ih hxs l2, List.length_cons]
    omega

theorem colIdx_lt_length {c : String} :
    ∀ {l : List String}, c ∈ l → colIdx c l < l.length := by
  intro l
  induction l with
  | nil => intro h; cases h
  | cons x xs ih =>
    intro h
    rw [colIdx_cons, List.length_cons]
    by_cases hx : x = c
    · rw [if_pos hx]
      omega
    · have hxs : c ∈ xs := by
        rcases List.mem_cons.mp h with rfl | h2
        · exact absurd rfl hx
        · exact h2
      rw [if_neg hx]
      exact Nat.succ_lt_succ (ih hxs)

theorem map_getD_colIdx (f : String → Option ℚ) {c : String} :
    ∀ {l : List String}, c ∈ l →
      (l.map f).getD (colIdx c l) none = f c := by
  intro l
  induction l with
  | nil => intro h; cases h
  | cons x xs ih =>
    intro h
    rw [List.map_cons, colIdx_cons]
    by_cases hx : x = c
    · rw [if_pos hx, List.getD_cons_zero, hx]
    · have hxs : c ∈ xs := by
        rcases List.mem_cons.mp h with rfl | h2
        · exact absurd rfl hx
        · exact h2
      rw [if_neg hx, List.getD_cons_succ, ih hxs]

theorem foldl_addCol (d : NFrame) :
    ∀ (cs : List String) (acc : NFrame), cs.Nodup →
      (∀ r ∈ acc.rows, r ≠ []) →
      cs.foldl (addCol d) acc =
        ⟨acc.cols ++ cs.filter (fun c => decide (c ∉ acc.cols)),
         acc.rows.map (fun r => r ++
           (cs.filter (fun c => decide (c ∉ acc.cols))).map
             (fun c => dLookup d (r.headD none) c))⟩ := by
  intro cs
  induction cs with
  | nil =>
    intro acc _ _
    simp
  | cons c cs2 ih =>
    intro acc hnd hne
    have hnd2 := (List.nodup_cons.mp hnd).2
    have hcc : c ∉ cs2 := (List.nodup_cons.mp hnd).1
    rw [List.foldl_cons]
    by_cases hc : c ∈ acc.cols
    · rw [show addCol d acc c = acc from by unfold addCol; rw [if_pos hc]]
      rw [ih acc hnd2 hne]
      have hfilt : (c :: cs2).filter (fun x => decide (x ∉ acc.cols)) =
          cs2.filter (fun x => decide (x ∉ acc.cols)) := by
        simp [List.filter_cons, hc]
      rw [hfilt]
    · rw [show addCol d acc c =
          ⟨acc.cols ++ [c],
           acc.rows.map (fun r => r ++ [dLookup d (r.headD none) c])⟩ from by
        unfold addCol; rw [if_neg hc]]
      have hne2 : ∀ r ∈ acc.rows.map
          (fun r => r ++ [dLookup d (r.headD none) c]), r ≠ [] := by
        intro r hr
        rcases List.mem_map.mp hr with ⟨r0, _, rfl⟩
        simp
      rw [ih _ hnd2 hne2]
      have hfilt2 : cs2.filter (fun x => decide (x ∉ acc.cols ++ [c])) =
          cs2.filter (fun x => decide (x ∉ acc.cols)) := by
        apply List.filter_congr
        intro x hx
        have hxc : x ≠ c := fun h => hcc (h ▸ hx)
        simp [List.mem_append, hxc]
      have hfilt1 : (c :: cs2).filter (fun x => decide (x ∉ acc.cols)) =
          c :: cs2.filter (fun x => decide (x ∉ acc.cols)) := by
        simp [List.filter_cons, hc]
      congr 1
      · rw [hfilt2, hfilt1, List.append_assoc, List.singleton_append]
      · rw [List.map_map, hfilt1, hfilt2]
        apply List.map_congr_left
        intro r hr
        have hh : (r ++ [dLookup d (r.headD none) c]).headD none =
            r.headD none := by
          cases hr0 : r with
          | nil => exact absurd hr0 (hne r hr)
          | cons a as => rw [List.cons_append, List.headD_cons, List.headD_cons]
        show r ++ [dLookup d (r.headD none) c] ++
            (cs2.filter (fun x => decide (x ∉ acc.cols))).map
              (fun c2 => dLookup d
                ((r ++ [dLookup d (r.headD none) c]).headD none) c2) =
          r ++ (c :: cs2.filter (fun x => decide (x ∉ acc.cols))).map
            (fun c2 => dLookup d (r.headD none) c2)
        rw [hh, List.append_assoc, List.singleton_append, List.map_cons]

/-- Claim C10: `update` preserves the schema: the columns afterwards are
exactly the original columns in their original order; the rows are those
of the update frame; a column present in the (renamed) update frame is
overwritten with its values, and any other original column keeps its
previous values joined on the time index. -/
theorem update_schema_preserved (renames : List (String × String))
    (d s : NFrame) (hd0 : d.cols ≠ []) (hs0 : s.cols ≠ [])
    (hts : s.cols.headD "" = d.cols.headD "")
    (hwf : ∀ r ∈ s.rows, r.length = s.cols.length)
    (hnd : d.cols.Nodup) :
    (NFrame.update renames d s).cols = d.cols ∧
    (NFrame.update renames d s).rows.length = s.rows.length ∧
    (NFrame.update renames d s).rows = s.rows.map (fun r => d.cols.map (fun c =>
      if c ∈ (d.cols.headD "") :: s.cols.tail.map (renget renames)
      then r.getD
        (colIdx c ((d.cols.headD "") :: s.cols.tail.map (renget renames))) none
      else dLookup d (r.headD none) c)) := by
  obtain ⟨a, as, hdc⟩ := List.exists_cons_of_ne_nil hd0
  obtain ⟨b, bs, hsc⟩ := List.exists_cons_of_ne_nil hs0
  have hSlen : ((d.cols.headD "") :: s.cols.tail.map (renget renames)).length =
      s.cols.length := by
    rw [hsc]
    simp
  have hne : ∀ r ∈ s.rows, r ≠ [] := by
    intro r hr hr0
    have hw := hwf r hr
    rw [hr0, hsc] at hw
    simp at hw
  have hndt : d.cols.tail.Nodup := by
    rw [hdc]
    exact (List.nodup_cons.mp (hdc ▸ hnd)).2
  have hfold := foldl_addCol d d.cols.tail
    ⟨(d.cols.headD "") :: s.cols.tail.map (renget renames), s.rows⟩ hndt hne
  have hupd : NFrame.update renames d s = selectColsByName d.cols
      (d.cols.tail.foldl (addCol d)
        ⟨(d.cols.headD "") :: s.cols.tail.map (renget renames), s.rows⟩) := rfl
  rw [hupd, hfold]
  simp only [selectColsByName]
  refine ⟨trivial, by rw [List.length_map, List.length_map], ?_⟩
  rw [List.map_map]
  apply List.map_congr_left
  intro r hr
  have hrlen : r.length =
      ((d.cols.headD "") :: s.cols.tail.map (renget renames)).length := by
    rw [hSlen]
    exact hwf r hr
  show d.cols.map _ = d.cols.map _
  apply List.map_congr_left
  intro c hcd
  by_cases hcS : c ∈ (d.cols.headD "") :: s.cols.tail.map (renget renames)
  · rw [if_pos hcS]
    show (r ++ _).getD (colIdx c (_ ++ _)) none = _
    rw [colIdx_append_left hcS,
        List.getD_append _ _ _ _ (lt_of_lt_of_le (colIdx_lt_length hcS)
          (le_of_eq hrlen.symm))]
  · rw [if_neg hcS]
    have hca : c ≠ a := by
      intro hca
      apply hcS
      subst hca
      rw [hdc, List.headD_cons]
      exact List.mem_cons_self _ _
    have hct : c ∈ d.cols.tail := by
      rw [hdc]
      rcases List.mem_cons.mp (hdc ▸ hcd) with h2 | h2
      · exact absurd h2 hca
      · exact h2
    have hcE : c ∈ d.cols.tail.filter (fun x => decide
        (x ∉ (d.cols.headD "") :: s.cols.tail.map (renget renames))) :=
      List.mem_filter.mpr ⟨hct, decide_eq_true hcS⟩
    show (r ++ _).getD (colIdx c (_ ++ _)) none = _
    rw [colIdx_append_right hcS,
        show ((d.cols.headD "") :: s.cols.tail.map (renget renames)).length
          = r.length from hrlen.symm,
        List.getD_append_right _ _ _ _ (Nat.le_add_right _ _),
        Nat.add_sub_cancel_left]
    exact map_getD_colIdx _ hcE

/-- Witness for C10 on small concrete frames. -/
theorem update_schema_preserved_witness :
    (dC10.cols ≠ [] ∧ sC10.cols ≠ [] ∧
      sC10.cols.headD "" = dC10.cols.headD "" ∧ dC10.cols.Nodup) ∧
    (NFrame.update [] dC10 sC10).cols = dC10.cols ∧
    (NFrame.update [] dC10 sC10).rows.length = sC10.rows.length :=
  ⟨⟨by decide, by decide, by decide, by decide⟩,
   (update_schema_preserved [] dC10 sC10 (by decide) (by decide) (by decide)
     (by decide) (by decide)).1,
   (update_schema_preserved [] dC10 sC10 (by decide) (by decide) (by decide)
     (by decide) (by decide)).2.1⟩

end Finplot
